import Mathlib

/-!
Verification of the product-catalog parsing pipeline (`src/parser.py`).

The embedding models Python dicts as insertion-ordered association lists with
last-write-wins lookup (`dictGet`), Python values that can be a string or
`None` (`Val`), the two static field-name mappings, the fixed CSV column
schema, the per-record schema coercion (`Parser.coerce_model`), the format
registry lookup (`Parser.__init__`), and the Mongo storage layer
(`MongoStorage.__init__` index setup and `MongoStorage.store` bulk upsert).
-/

/-- A Python value as it occurs in raw/canonical records: either `None`
(`Val.null`, e.g. the text of an empty XML element) or a string. -/
inductive Val where
  | null : Val
  | str : String → Val
deriving DecidableEq, Repr

/-- Python truthiness for `Val`: `None` and the empty string are falsy. -/
def truthy : Val → Bool
  | Val.null => false
  | Val.str s => !s.isEmpty

/-- A record (Python dict) keyed by strings: an insertion-ordered association
list. Lookup is last-write-wins, matching dict-comprehension semantics. -/
abbrev Rec := List (String × Val)

/-- Python dict lookup on an association list: the value of the LAST binding
of the key, `none` if the key is absent (models `d.get(k)` / `k in d`). -/
def dictGet {α : Type} : List (String × α) → String → Option α
  | [], _ => none
  | (k, v) :: rest, key =>
    match dictGet rest key with
    | some w => some w
    | none => if k = key then some v else none

/-- `MODEL_TO_CSV_DICT` from `src/parser.py`: canonical field name to
CSV-native field name. -/
def MODEL_TO_CSV_DICT : List (String × Option String) :=
  [("id", some "product_id"),
   ("title", some "product_name"),
   ("sku_number", some "sku_number"),
   ("url", some "product_url"),
   ("image_url", some "product_image_url"),
   ("buy_url", some "buy_url"),
   ("description", some "long_product_description"),
   ("discount", some "discount"),
   ("discount_type", some "discount_type"),
   ("currency", some "currency"),
   ("retail_price", some "retail_price"),
   ("sale_price", some "sale_price"),
   ("brand", some "brand"),
   ("manufacture", some "manufacture_name"),
   ("shipping", some "shipping"),
   ("availability", some "availability")]

/-- `MODEL_TO_XML_DICT` from `src/parser.py`: canonical field name to
XML-native field name; `none` models the Python `None` entries. -/
def MODEL_TO_XML_DICT : List (String × Option String) :=
  [("id", some "item_unique_id"),
   ("title", some "item_title"),
   ("sku_number", some "item_sku"),
   ("url", some "item_page_url"),
   ("image_url", some "item_image_url"),
   ("buy_url", some "offer_page_url"),
   ("description", some "book_size_description"),
   ("discount", none),
   ("discount_type", none),
   ("currency", none),
   ("retail_price", some "item_price"),
   ("sale_price", some "list_price"),
   ("brand", some "item_seller"),
   ("manufacture", some "item_platform"),
   ("shipping", some "item_shipping_charge"),
   ("availability", some "amzn_sales_restriction")]

/-- `CsvParser.HEADERS_CSV` from `src/parser.py`, transcribed in order. -/
def HEADERS_CSV : List String :=
  ["product_id",
   "product_name",
   "sku_number",
   "primary_category",
   "secondary_category",
   "product_url",
   "product_image_url",
   "buy_url",
   "short_product_description",
   "long_product_description",
   "discount", "discount_type",
   "sale_price",
   "retail_price",
   "begin_date",
   "end_date",
   "brand",
   "shipping",
   "keywords",
   "manufacture_part_number",
   "manufacture_name",
   "shipping_information",
   "availability",
   "universal_product_code",
   "class_id",
   "currency",
   "m1",
   "pixel",
   "miscellaneous_attribute",
   "attribute_2", "attribute_3",
   "attribute_4",
   "attribute_5",
   "attribute_6",
   "attribute_7",
   "attribute_8",
   "attribute_9",
   "attribute_10"]

/-- Pair a list of column names with the cells of one delimited row.
A cell is `Option String`, `none` standing for a missing/NaN cell (pandas
`NaN`); `fillna` coerces those to the empty string, and headers beyond the
row's length (missing trailing columns) also get the empty string. -/
def rowFields : List String → List (Option String) → List (String × Val)
  | [], _ => []
  | h :: hs, [] => (h, Val.str "") :: rowFields hs []
  | h :: hs, c :: cs => (h, Val.str (c.getD "")) :: rowFields hs cs

/-- One row of `CsvParser.parse`: the row's cells decoded against
`HEADERS_CSV` in order, missing/NaN cells coerced to the empty string
(models `chunk.fillna('').to_dict('records')` for one row). -/
def csvRowToRaw (cells : List (Option String)) : Rec :=
  rowFields HEADERS_CSV cells

/-- `CsvParser.parse` over a whole file, the file given as its list of rows
(each row its list of cells): one `RawRecord` per row, in file order. -/
def csvParse (rows : List (List (Option String))) : List Rec :=
  rows.map csvRowToRaw

/-- Convert an XML child's text (`Option String`, `none` for Python `None`)
to a record value. -/
def txtVal : Option String → Val
  | some s => Val.str s
  | none => Val.null

/-- One record-container element of `XmlParser.parse`: the dict comprehension
over the element's immediate children, child tag mapped to child text
(models the line yielding one dict per `item_basic_data` element). -/
def xmlElemToRaw (children : List (String × Option String)) : Rec :=
  children.map (fun c => (c.1, txtVal c.2))

/-- `XmlParser.parse` over a whole document, the document given as the list
of its record-container (`item_basic_data`) elements, each as the list of its
immediate children (tag, text): one `RawRecord` per element, in order. -/
def xmlParse (elems : List (List (String × Option String))) : List Rec :=
  elems.map xmlElemToRaw

/-- The body of the dict comprehension in `Parser.coerce_model` for one
mapping entry: emit the canonical field iff the native name is truthy (not
`None`, not empty) and `item.get(native)` is truthy; the value is copied
verbatim from the raw record. -/
def coerceEntry (item : Rec) (p : String × Option String) : Option (String × Val) :=
  match p.2 with
  | none => none
  | some n =>
    if n = "" then none
    else
      match dictGet item n with
      | none => none
      | some v => if truthy v then some (p.1, v) else none

/-- `Parser.coerce_model` for one raw record: the output dict built from the
active mapping's entries in order. -/
def coerce_item (mapping : List (String × Option String)) (item : Rec) : Rec :=
  mapping.filterMap (coerceEntry item)

/-- `Parser.coerce_model`: the generator yielding one coerced record per
input record, in input order. A pure function of the mapping and the input
sequence (no state, no I/O). -/
def coerce_model (mapping : List (String × Option String)) : List Rec → List Rec
  | [] => []
  | item :: rest => coerce_item mapping item :: coerce_model mapping rest

/-- The concrete parser class selected by the registry. -/
inductive ParserKind where
  | csvKind : ParserKind
  | xmlKind : ParserKind
deriving DecidableEq, Repr

/-- `Parser.PARSERS_DATA`: the static registry mapping a format tag to its
parser class and model mapping. -/
def PARSERS_DATA : List (String × (ParserKind × List (String × Option String))) :=
  [("csv", (ParserKind.csvKind, MODEL_TO_CSV_DICT)),
   ("xml", (ParserKind.xmlKind, MODEL_TO_XML_DICT))]

/-- The state of a constructed `Parser`: the resolved parser class and the
format tag it was constructed with. -/
structure ParserSt where
  prs : ParserKind
  fmt : String
deriving DecidableEq, Repr

/-- `Parser.__init__`: registry lookup by format tag; an unknown tag raises
`ValueError` (modelled as `Except.error`) before any file path is involved —
the constructor receives no path and performs no I/O. -/
def parserInit (data_format : String) : Except String ParserSt :=
  match dictGet PARSERS_DATA data_format with
  | some pd => Except.ok ⟨pd.1, data_format⟩
  | none => Except.error ("No parser for " ++ data_format ++ " format")

/-- The stored collection: an association list from the value of the `id`
field to the stored document (the unique index on `id` keeps one document
per key, and `bulk.find` matches on that key). -/
abbrev Coll := List (Val × Rec)

/-- First-match lookup in the collection by `id` value (what the filter
`find({'id': ...})` matches). -/
def collGet : Coll → Val → Option Rec
  | [], _ => none
  | (j, e) :: rest, i => if j = i then some e else collGet rest i

/-- One `find({'id': i}).upsert().replace_one(d)` operation: if a document
with that id exists it is wholly replaced by `d`, otherwise `d` is inserted. -/
def upsertById : Coll → Val → Rec → Coll
  | [], i, d => [(i, d)]
  | (j, e) :: rest, i, d =>
    if j = i then (j, d) :: rest
    else (j, e) :: upsertById rest i d

/-- `bulk.execute()`: apply the batched upsert operations to the collection. -/
def applyOps (c : Coll) (ops : Coll) : Coll :=
  ops.foldl (fun acc op => upsertById acc op.1 op.2) c

/-- The batch-assembly loop of `MongoStorage.store`: for each document read
`doc['id']` (raising `KeyError` if absent) and queue one upsert operation.
Nothing touches the collection during assembly. -/
def buildBulk : List Rec → Except String Coll
  | [] => Except.ok []
  | d :: ds =>
    match dictGet d "id" with
    | some i => (buildBulk ds).map (fun ops => (i, d) :: ops)
    | none => Except.error "KeyError: id"

/-- Outcome of one `MongoStorage.store` call: the collection state after the
call and the exception, if one was raised. -/
structure StoreResult where
  coll : Coll
  err : Option String
deriving DecidableEq, Repr

/-- `MongoStorage.store`: assemble the batch, then `bulk.execute()`. If
assembly raises (a document lacks `id`), the batch is never executed and the
collection is left exactly as it was. -/
def store (c : Coll) (docs : List Rec) : StoreResult :=
  match buildBulk docs with
  | Except.ok ops => ⟨applyOps c ops, none⟩
  | Except.error e => ⟨c, some e⟩

/-- All documents of the batch carry an `id` key. -/
def hasIds (docs : List Rec) : Bool :=
  docs.all (fun d => (dictGet d "id").isSome)

/-- The collection's index information: index name paired with its `unique`
flag. -/
abbrev IndexInfo := List (String × Bool)

/-- The index setup in `MongoStorage.__init__`: if no index named `id` is in
`index_information()`, create a unique index on `id`; otherwise do nothing. -/
def mongoInitIndexes (idx : IndexInfo) : IndexInfo :=
  if (dictGet idx "id").isSome then idx else idx ++ [("id", true)]

/-- `s` and `t` have the same key skeleton and agree everywhere except
possibly at the document stored at the first occurrence of key `i`; past
that first occurrence the lists are identical. -/
def agreeExcept (i : Val) : Coll → Coll → Prop
  | [], [] => True
  | p :: s, q :: t =>
    p.1 = q.1 ∧ (if p.1 = i then s = t else p.2 = q.2 ∧ agreeExcept i s t)
  | _, _ => False

theorem dictGet_cons_ne {α : Type} {k key : String} (v : α) (rest : List (String × α))
    (h : k ≠ key) : dictGet ((k, v) :: rest) key = dictGet rest key := by
  show (match dictGet rest key with
    | some w => some w
    | none => if k = key then some v else none) = dictGet rest key
  cases hr : dictGet rest key with
  | some w => rfl
  | none => simp [h]

theorem dictGet_not_mem {α : Type} {l : List (String × α)} {key : String}
    (h : key ∉ l.map Prod.fst) : dictGet l key = none := by
  induction l with
  | nil => rfl
  | cons p rest ih =>
    have hk : p.1 ≠ key := by
      intro he; exact h (by simp [he])
    have hr : dictGet rest key = none := ih (fun hm => h (by simp [hm]))
    cases p with
    | mk k v =>
      rw [dictGet_cons_ne v rest hk, hr]

theorem dictGet_mem {α : Type} {l : List (String × α)} {key : String} {v : α}
    (h : dictGet l key = some v) : (key, v) ∈ l := by
  induction l with
  | nil => simp [dictGet] at h
  | cons p rest ih =>
    cases p with
    | mk k w =>
      have h' : (match dictGet rest key with
        | some u => some u
        | none => if k = key then some w else none) = some v := h
      cases hr : dictGet rest key with
      | some u =>
        rw [hr] at h'
        exact List.mem_cons_of_mem _ (ih (hr.trans h'))
      | none =>
        rw [hr] at h'
        by_cases hk : k = key
        · rw [if_pos hk] at h'
          subst hk
          cases h'
          exact List.mem_cons_self _ _
        · rw [if_neg hk] at h'
          cases h'

theorem dictGet_cons_self {α : Type} {k : String} {v : α} {rest : List (String × α)}
    (h : dictGet rest k = none) : dictGet ((k, v) :: rest) k = some v := by
  show (match dictGet rest k with
    | some u => some u
    | none => if k = k then some v else none) = some v
  rw [h]
  simp

theorem dictGet_iff_mem {α : Type} {l : List (String × α)}
    (hnd : (l.map Prod.fst).Nodup) {key : String} {v : α} :
    dictGet l key = some v ↔ (key, v) ∈ l := by
  constructor
  · exact dictGet_mem
  · intro hm
    induction l with
    | nil => cases hm
    | cons p rest ih =>
      cases p with
      | mk k w =>
        have hnd' : (rest.map Prod.fst).Nodup := (List.nodup_cons.mp hnd).2
        have hknr : k ∉ rest.map Prod.fst := (List.nodup_cons.mp hnd).1
        rcases List.mem_cons.mp hm with he | ht
        · rw [Prod.mk.injEq] at he
          obtain ⟨h1, h2⟩ := he
          subst h1
          subst h2
          exact dictGet_cons_self (dictGet_not_mem hknr)
        · have hkey : key ∈ rest.map Prod.fst :=
            List.mem_map.mpr ⟨(key, v), ht, rfl⟩
          have hk : k ≠ key := fun he => hknr (he ▸ hkey)
          rw [dictGet_cons_ne w rest hk]
          exact ih hnd' ht

theorem dictGet_append_right {α : Type} (a : List (String × α)) {b : List (String × α)}
    {key : String} {w : α} (h : dictGet b key = some w) :
    dictGet (a ++ b) key = some w := by
  induction a with
  | nil => simpa using h
  | cons p rest ih =>
    cases p with
    | mk k v =>
      show (match dictGet (rest ++ b) key with
        | some u => some u
        | none => if k = key then some v else none) = some w
      rw [ih]

theorem dictGet_append_left {α : Type} (a : List (String × α)) {b : List (String × α)}
    {key : String} (h : dictGet b key = none) :
    dictGet (a ++ b) key = dictGet a key := by
  induction a with
  | nil => simpa using h
  | cons p rest ih =>
    cases p with
    | mk k v =>
      show (match dictGet (rest ++ b) key with
        | some u => some u
        | none => if k = key then some v else none) =
        (match dictGet rest key with
        | some u => some u
        | none => if k = key then some v else none)
      rw [ih]

theorem coerceEntry_eq_some {item : Rec} {p : String × Option String} {q : String × Val} :
    coerceEntry item p = some q ↔
      q.1 = p.1 ∧ ∃ n, p.2 = some n ∧ n ≠ "" ∧ dictGet item n = some q.2 ∧
        truthy q.2 = true := by
  cases p with
  | mk mn cfn =>
    cases cfn with
    | none => simp [coerceEntry]
    | some n =>
      by_cases hn : n = ""
      · subst hn
        simp [coerceEntry]
      · cases hv : dictGet item n with
        | none => simp [coerceEntry, hn, hv]
        | some v =>
          by_cases ht : truthy v = true
          · cases q with
            | mk q1 q2 =>
              simp only [coerceEntry, hn, hv, ht, if_true, if_neg hn]
              constructor
              · intro he
                cases he
                exact ⟨rfl, n, rfl, hn, hv, ht⟩
              · rintro ⟨h1, n', hn', hne', hv', ht'⟩
                cases hn'
                subst h1
                rw [hv] at hv'
                cases hv'
                rfl
          · simp only [coerceEntry, hn, hv, if_neg hn, ht]
            simp only [Bool.not_eq_true] at ht
            constructor
            · intro he; cases he
            · rintro ⟨h1, n', hn', hne', hv', ht'⟩
              cases hn'
              rw [hv] at hv'
              cases hv'
              rw [ht] at ht'
              cases ht'

theorem mem_coerce_item {mapping : List (String × Option String)} {item : Rec}
    {q : String × Val} :
    q ∈ coerce_item mapping item ↔ ∃ p ∈ mapping, coerceEntry item p = some q := by
  simp [coerce_item, List.mem_filterMap]

theorem coerce_model_eq_map (mapping : List (String × Option String)) (raws : List Rec) :
    coerce_model mapping raws = raws.map (coerce_item mapping) := by
  induction raws with
  | nil => rfl
  | cons r rest ih => simp [coerce_model, ih]

theorem coerce_item_keys_sublist (m : List (String × Option String)) (item : Rec) :
    ((coerce_item m item).map Prod.fst).Sublist (m.map Prod.fst) := by
  induction m with
  | nil => simp [coerce_item]
  | cons p m' ih =>
    rw [coerce_item, List.filterMap_cons]
    cases he : coerceEntry item p with
    | none => exact List.Sublist.cons _ ih
    | some e =>
      obtain ⟨h1, _, _, _, _, _⟩ := coerceEntry_eq_some.mp he
      simp only [List.map_cons]
      rw [h1]
      exact List.Sublist.cons₂ _ ih

theorem coerce_item_unmapped {m : List (String × Option String)} {item : Rec}
    {k : String} (h : ∀ q ∈ m, q.1 = k → q.2 = none) :
    dictGet (coerce_item m item) k = none := by
  apply dictGet_not_mem
  intro hk
  obtain ⟨q', hq', hfst⟩ := List.mem_map.mp hk
  obtain ⟨p, hp, he⟩ := mem_coerce_item.mp hq'
  obtain ⟨h1, n, hn, _, _, _⟩ := coerceEntry_eq_some.mp he
  have : p.2 = none := h p hp (by rw [← h1, hfst])
  rw [this] at hn
  cases hn

theorem coerce_item_dictGet {m : List (String × Option String)}
    (hnd : (m.map Prod.fst).Nodup) (item : Rec) (mn : String) (v : Val) :
    dictGet (coerce_item m item) mn = some v ↔
      ∃ n, dictGet m mn = some (some n) ∧ n ≠ "" ∧ dictGet item n = some v ∧
        truthy v = true := by
  have hnd' : ((coerce_item m item).map Prod.fst).Nodup :=
    (coerce_item_keys_sublist m item).nodup hnd
  rw [dictGet_iff_mem hnd', mem_coerce_item]
  constructor
  · rintro ⟨p, hp, he⟩
    obtain ⟨h1, n, hn, hne, hv, ht⟩ := coerceEntry_eq_some.mp he
    refine ⟨n, ?_, hne, hv, ht⟩
    rw [dictGet_iff_mem hnd]
    cases p with
    | mk p1 p2 =>
      simp only at h1 hn
      rw [h1, ← hn]
      exact hp
  · rintro ⟨n, hm, hne, hv, ht⟩
    have hmem : (mn, some n) ∈ m := dictGet_mem hm
    refine ⟨(mn, some n), hmem, ?_⟩
    rw [coerceEntry_eq_some]
    exact ⟨rfl, n, rfl, hne, hv, ht⟩

theorem dictGet_map_snd {α β : Type} (g : α → β) (l : List (String × α)) (k : String) :
    dictGet (l.map (fun p => (p.1, g p.2))) k = (dictGet l k).map g := by
  induction l with
  | nil => rfl
  | cons p rest ih =>
    cases p with
    | mk k' v' =>
      simp only [List.map_cons, dictGet]
      rw [ih]
      cases hr : dictGet rest k with
      | some w => simp
      | none =>
        by_cases hk : k' = k <;> simp [hk]

theorem collGet_upsert_self (c : Coll) (i : Val) (d : Rec) :
    collGet (upsertById c i d) i = some d := by
  induction c with
  | nil => simp [upsertById, collGet]
  | cons p rest ih =>
    cases p with
    | mk j e =>
      by_cases hj : j = i
      · simp [upsertById, hj, collGet]
      · simp [upsertById, hj, collGet, ih]

theorem collGet_upsert_ne {c : Coll} {i j : Val} (d : Rec) (h : j ≠ i) :
    collGet (upsertById c j d) i = collGet c i := by
  induction c with
  | nil => simp [upsertById, collGet, h]
  | cons p rest ih =>
    cases p with
    | mk k e =>
      by_cases hk : k = j
      · subst hk
        simp [upsertById, collGet, h]
      · by_cases hki : k = i
        · simp [upsertById, hk, collGet, hki, Ne.symm h]
        · simp [upsertById, hk, collGet, hki, ih]

theorem upsertById_eq_self {c : Coll} {i : Val} {d : Rec}
    (h : collGet c i = some d) : upsertById c i d = c := by
  induction c with
  | nil => simp [collGet] at h
  | cons p rest ih =>
    cases p with
    | mk j e =>
      by_cases hj : j = i
      · rw [collGet, if_pos hj] at h
        cases h
        simp [upsertById, hj]
      · rw [collGet, if_neg hj] at h
        simp [upsertById, hj, ih h]

theorem collGet_isSome_applyOps {i : Val} (ops : Coll) {c : Coll}
    (h : (collGet c i).isSome = true) :
    (collGet (applyOps c ops) i).isSome = true := by
  induction ops generalizing c with
  | nil => exact h
  | cons op rest ih =>
    show (collGet (applyOps (upsertById c op.1 op.2) rest) i).isSome = true
    apply ih
    by_cases hj : op.1 = i
    · subst hj
      rw [collGet_upsert_self]
      rfl
    · rw [collGet_upsert_ne op.2 hj]
      exact h

theorem applyOps_collGet_no_key {ops : Coll} {i : Val}
    (h : ∀ op ∈ ops, op.1 ≠ i) (c : Coll) :
    collGet (applyOps c ops) i = collGet c i := by
  induction ops generalizing c with
  | nil => rfl
  | cons op rest ih =>
    have h1 : op.1 ≠ i := h op (List.mem_cons_self _ _)
    have h2 : ∀ op' ∈ rest, op'.1 ≠ i := fun o ho => h o (List.mem_cons_of_mem _ ho)
    show collGet (applyOps (upsertById c op.1 op.2) rest) i = collGet c i
    rw [ih h2, collGet_upsert_ne op.2 h1]

theorem agreeExcept_refl (i : Val) (s : Coll) : agreeExcept i s s := by
  induction s with
  | nil => trivial
  | cons p s ih =>
    refine ⟨rfl, ?_⟩
    split
    · rfl
    · exact ⟨rfl, ih⟩

theorem agreeExcept_upsert_self {s : Coll} {i : Val}
    (h : (collGet s i).isSome = true) (d : Rec) :
    agreeExcept i s (upsertById s i d) := by
  induction s with
  | nil => simp [collGet] at h
  | cons p rest ih =>
    cases p with
    | mk j e =>
      by_cases hj : j = i
      · show agreeExcept i ((j, e) :: rest) (upsertById ((j, e) :: rest) i d)
        rw [upsertById, if_pos hj]
        exact ⟨rfl, by rw [if_pos hj]⟩
      · rw [collGet, if_neg hj] at h
        show agreeExcept i ((j, e) :: rest) (upsertById ((j, e) :: rest) i d)
        rw [upsertById, if_neg hj]
        exact ⟨rfl, by rw [if_neg hj]; exact ⟨rfl, ih h⟩⟩

theorem agreeExcept_upsert_cong {i j : Val} (e : Rec) (hj : j ≠ i) :
    ∀ {s t : Coll}, agreeExcept i s t →
      agreeExcept i (upsertById s j e) (upsertById t j e) := by
  intro s
  induction s with
  | nil =>
    intro t h
    cases t with
    | nil => exact agreeExcept_refl i [(j, e)]
    | cons q t' => exact absurd h (by simp [agreeExcept])
  | cons p s' ih =>
    intro t h
    cases t with
    | nil => exact absurd h (by simp [agreeExcept])
    | cons q t' =>
      cases p with
      | mk p1 p2 =>
        cases q with
        | mk q1 q2 =>
          obtain ⟨hfst, hrest⟩ := h
          simp only at hfst
          subst hfst
          by_cases hpj : p1 = j
          · have hp1i : p1 ≠ i := fun hh => hj (hpj.symm.trans hh)
            rw [if_neg hp1i] at hrest
            obtain ⟨hsnd, hag⟩ := hrest
            simp only at hsnd
            subst hsnd
            rw [upsertById, if_pos hpj, upsertById, if_pos hpj]
            exact ⟨rfl, by rw [if_neg hp1i]; exact ⟨rfl, hag⟩⟩
          · rw [upsertById, if_neg hpj, upsertById, if_neg hpj]
            by_cases hp1i : p1 = i
            · rw [if_pos hp1i] at hrest
              subst hrest
              exact ⟨rfl, by rw [if_pos hp1i]⟩
            · rw [if_neg hp1i] at hrest
              obtain ⟨hsnd, hag⟩ := hrest
              exact ⟨rfl, by rw [if_neg hp1i]; exact ⟨hsnd, ih hag⟩⟩

theorem agreeExcept_upsert_collapse {i : Val} (d : Rec) :
    ∀ {s t : Coll}, agreeExcept i s t → upsertById s i d = upsertById t i d := by
  intro s
  induction s with
  | nil =>
    intro t h
    cases t with
    | nil => rfl
    | cons q t' => exact absurd h (by simp [agreeExcept])
  | cons p s' ih =>
    intro t h
    cases t with
    | nil => exact absurd h (by simp [agreeExcept])
    | cons q t' =>
      cases p with
      | mk p1 p2 =>
        cases q with
        | mk q1 q2 =>
          obtain ⟨hfst, hrest⟩ := h
          simp only at hfst
          subst hfst
          by_cases hp1i : p1 = i
          · rw [if_pos hp1i] at hrest
            subst hrest
            rw [upsertById, if_pos hp1i, upsertById, if_pos hp1i]
          · rw [if_neg hp1i] at hrest
            obtain ⟨hsnd, hag⟩ := hrest
            simp only at hsnd
            subst hsnd
            rw [upsertById, if_neg hp1i, upsertById, if_neg hp1i, ih hag]

theorem applyOps_agree {i : Val} :
    ∀ ops : Coll, (∃ op ∈ ops, op.1 = i) →
      ∀ s t : Coll, agreeExcept i s t → applyOps s ops = applyOps t ops := by
  intro ops
  induction ops with
  | nil =>
    rintro ⟨op, hop, _⟩
    cases hop
  | cons op rest ih =>
    intro hk s t h
    show applyOps (upsertById s op.1 op.2) rest = applyOps (upsertById t op.1 op.2) rest
    by_cases hoi : op.1 = i
    · rw [hoi, agreeExcept_upsert_collapse op.2 h]
    · have hk' : ∃ op' ∈ rest, op'.1 = i := by
        obtain ⟨o, ho, hoi'⟩ := hk
        rcases List.mem_cons.mp ho with he | ht
        · subst he
          exact absurd hoi' hoi
        · exact ⟨o, ht, hoi'⟩
      exact ih hk' _ _ (agreeExcept_upsert_cong op.2 hoi h)

theorem applyOps_idem : ∀ (ops : Coll) (c : Coll),
    applyOps (applyOps c ops) ops = applyOps c ops := by
  intro ops
  induction ops with
  | nil => intro c; rfl
  | cons op rest ih =>
    intro c
    show applyOps
        (upsertById (applyOps (upsertById c op.1 op.2) rest) op.1 op.2) rest =
      applyOps (upsertById c op.1 op.2) rest
    by_cases hk : ∃ o ∈ rest, o.1 = op.1
    · have hS : (collGet (applyOps (upsertById c op.1 op.2) rest) op.1).isSome = true :=
        collGet_isSome_applyOps rest (by rw [collGet_upsert_self]; rfl)
      rw [← applyOps_agree rest hk _ _ (agreeExcept_upsert_self hS op.2)]
      exact ih (upsertById c op.1 op.2)
    · have hno : ∀ o ∈ rest, o.1 ≠ op.1 := by
        intro o ho he
        exact hk ⟨o, ho, he⟩
      have hcg : collGet (applyOps (upsertById c op.1 op.2) rest) op.1 = some op.2 := by
        rw [applyOps_collGet_no_key hno, collGet_upsert_self]
      rw [upsertById_eq_self hcg]
      exact ih (upsertById c op.1 op.2)

theorem buildBulk_ok_of_hasIds {docs : List Rec} (h : hasIds docs = true) :
    ∃ ops, buildBulk docs = Except.ok ops := by
  induction docs with
  | nil => exact ⟨[], rfl⟩
  | cons d ds ih =>
    simp only [hasIds, List.all_cons, Bool.and_eq_true] at h
    obtain ⟨i, hi⟩ := Option.isSome_iff_exists.mp h.1
    obtain ⟨ops, hops⟩ := ih h.2
    exact ⟨(i, d) :: ops, by simp [buildBulk, hi, hops, Except.map]⟩

theorem buildBulk_error_of_missing {docs : List Rec}
    (h : ∃ d ∈ docs, dictGet d "id" = none) :
    ∃ e, buildBulk docs = Except.error e := by
  induction docs with
  | nil =>
    obtain ⟨d, hd, _⟩ := h
    cases hd
  | cons d ds ih =>
    cases hd : dictGet d "id" with
    | none => exact ⟨"KeyError: id", by simp [buildBulk, hd]⟩
    | some i =>
      have h' : ∃ d' ∈ ds, dictGet d' "id" = none := by
        obtain ⟨d', hd', hn⟩ := h
        rcases List.mem_cons.mp hd' with he | ht
        · subst he
          rw [hd] at hn
          cases hn
        · exact ⟨d', ht, hn⟩
      obtain ⟨e, he⟩ := ih h'
      exact ⟨e, by simp [buildBulk, hd, he, Except.map]⟩

theorem rowFields_keys (hs : List String) :
    ∀ cs : List (Option String), (rowFields hs cs).map Prod.fst = hs := by
  induction hs with
  | nil => intro cs; rfl
  | cons h hs ih =>
    intro cs
    cases cs with
    | nil => simp [rowFields, ih]
    | cons c cs => simp [rowFields, ih]

theorem rowFields_vals (hs : List String) :
    ∀ (cs : List (Option String)) (p : String × Val), p ∈ rowFields hs cs →
      ∃ s, p.2 = Val.str s := by
  induction hs with
  | nil =>
    intro cs p hp
    cases hp
  | cons h hs ih =>
    intro cs p hp
    cases cs with
    | nil =>
      rcases List.mem_cons.mp hp with he | ht
      · exact ⟨"", by rw [he]⟩
      · exact ih [] p ht
    | cons c cs =>
      rcases List.mem_cons.mp hp with he | ht
      · exact ⟨c.getD "", by rw [he]⟩
      · exact ih cs p ht

theorem rowFields_trailing (hs : List String) :
    ∀ (cs : List (Option String)) (i : Nat) (hi : i < (rowFields hs cs).length),
      cs.length ≤ i → ((rowFields hs cs).get ⟨i, hi⟩).2 = Val.str "" := by
  induction hs with
  | nil =>
    intro cs i hi hle
    simp [rowFields] at hi
  | cons h hs ih =>
    intro cs i hi hle
    cases cs with
    | nil =>
      cases i with
      | zero => rfl
      | succ i =>
        exact ih [] i (by simpa [rowFields] using hi) (Nat.zero_le i)
    | cons c cs =>
      cases i with
      | zero => exact absurd hle (by simp)
      | succ i =>
        exact ih cs i (by simpa [rowFields] using hi) (Nat.le_of_succ_le_succ hle)

theorem parserInit_unknown_tag {tag : String} (h1 : tag ≠ "csv") (h2 : tag ≠ "xml") :
    parserInit tag = Except.error ("No parser for " ++ tag ++ " format") := by
  have hd : dictGet PARSERS_DATA tag = none := by
    simp [dictGet, PARSERS_DATA, Ne.symm h1, Ne.symm h2]
  simp [parserInit, hd]

theorem coerce_item_dictGet_clean {m : List (String × Option String)}
    (hnd : (m.map Prod.fst).Nodup) (hne : ∀ p ∈ m, p.2 ≠ some "")
    (item : Rec) (mn : String) (v : Val) :
    dictGet (coerce_item m item) mn = some v ↔
      ∃ n, dictGet m mn = some (some n) ∧ dictGet item n = some v ∧
        truthy v = true := by
  rw [coerce_item_dictGet hnd item mn v]
  constructor
  · rintro ⟨n, hm, _, hv, ht⟩
    exact ⟨n, hm, hv, ht⟩
  · rintro ⟨n, hm, hv, ht⟩
    refine ⟨n, hm, ?_, hv, ht⟩
    intro he
    subst he
    exact hne _ (dictGet_mem hm) rfl

theorem coerce_model_get (mapping : List (String × Option String)) :
    ∀ (raws : List Rec) (i : Nat) (hi : i < raws.length)
      (hi' : i < (coerce_model mapping raws).length),
      (coerce_model mapping raws).get ⟨i, hi'⟩ =
        coerce_item mapping (raws.get ⟨i, hi⟩) := by
  intro raws
  induction raws with
  | nil =>
    intro i hi hi'
    cases hi
  | cons r rest ih =>
    intro i hi hi'
    cases i with
    | zero => rfl
    | succ i => exact ih i (Nat.lt_of_succ_lt_succ hi) (Nat.lt_of_succ_lt_succ hi')

theorem xmlElemToRaw_keys (children : List (String × Option String)) :
    (xmlElemToRaw children).map Prod.fst = children.map Prod.fst := by
  induction children with
  | nil => rfl
  | cons c cs ih =>
    simp only [xmlElemToRaw, List.map_cons] at ih ⊢
    rw [ih]

/-- Claim C1: for every raw record and canonical field name, under either
active format mapping, the canonical field appears in the record produced by
`Parser.coerce_model` iff the mapping defines a native field name for it and
the raw record's value for that native name is present and truthy; when it
appears, its value is the raw value copied verbatim. -/
theorem coerce_model_field_presence :
    ∀ (item : Rec) (mn : String) (v : Val),
      (dictGet (coerce_item MODEL_TO_CSV_DICT item) mn = some v ↔
        ∃ n, dictGet MODEL_TO_CSV_DICT mn = some (some n) ∧
          dictGet item n = some v ∧ truthy v = true) ∧
      (dictGet (coerce_item MODEL_TO_XML_DICT item) mn = some v ↔
        ∃ n, dictGet MODEL_TO_XML_DICT mn = some (some n) ∧
          dictGet item n = some v ∧ truthy v = true) :=
  fun item mn v =>
    ⟨coerce_item_dictGet_clean (by decide) (by decide) item mn v,
     coerce_item_dictGet_clean (by decide) (by decide) item mn v⟩

/-- Claim C2: when every record of the batch has an `id` key,
`MongoStorage.store` succeeds and running it a second time on the resulting
collection returns the identical result: every operation is a
replace-by-`id` upsert, so the run count does not change the stored state. -/
theorem store_idempotent (c : Coll) (docs : List Rec) (h : hasIds docs = true) :
    (store c docs).err = none ∧
      store ((store c docs).coll) docs = store c docs := by
  obtain ⟨ops, hops⟩ := buildBulk_ok_of_hasIds h
  constructor
  · simp [store, hops]
  · simp [store, hops, applyOps_idem]

/-- Witness for C2 at a concrete batch containing a repeated id. -/
theorem store_idempotent_witness :
    hasIds [[("id", Val.str "1"), ("title", Val.str "a")],
            [("id", Val.str "1"), ("title", Val.str "b")],
            [("id", Val.str "2")]] = true ∧
    (store [] [[("id", Val.str "1"), ("title", Val.str "a")],
               [("id", Val.str "1"), ("title", Val.str "b")],
               [("id", Val.str "2")]]).err = none ∧
    store ((store [] [[("id", Val.str "1"), ("title", Val.str "a")],
                      [("id", Val.str "1"), ("title", Val.str "b")],
                      [("id", Val.str "2")]]).coll)
        [[("id", Val.str "1"), ("title", Val.str "a")],
         [("id", Val.str "1"), ("title", Val.str "b")],
         [("id", Val.str "2")]] =
      store [] [[("id", Val.str "1"), ("title", Val.str "a")],
                [("id", Val.str "1"), ("title", Val.str "b")],
                [("id", Val.str "2")]] :=
  ⟨by decide, store_idempotent _ _ (by decide)⟩

/-- Claim C3: the registered tags `csv` and `xml` construct a `Parser`
successfully; every other tag makes `Parser.__init__` raise the
invalid-configuration error immediately — the constructor takes no file path
and performs no I/O, so nothing is touched before the failure. -/
theorem parser_registry_fail_fast :
    (parserInit "csv").isOk = true ∧ (parserInit "xml").isOk = true ∧
      ∀ tag : String, tag ≠ "csv" → tag ≠ "xml" →
        parserInit tag = Except.error ("No parser for " ++ tag ++ " format") :=
  ⟨rfl, rfl, fun _ h1 h2 => parserInit_unknown_tag h1 h2⟩

/-- Witness for C3 at the unregistered tag `json`. -/
theorem parser_registry_fail_fast_witness :
    parserInit "json" = Except.error ("No parser for " ++ "json" ++ " format") :=
  parser_registry_fail_fast.2.2 "json" (by decide) (by decide)

/-- Claim C4: `Parser.coerce_model` yields exactly one canonical record per
raw record — it equals the elementwise map of `coerce_item` — preserving
cardinality and positional order; being a plain function of the mapping and
the input list, it is pure and stateless. -/
theorem coerce_model_one_to_one_ordered (mapping : List (String × Option String))
    (raws : List Rec) :
    coerce_model mapping raws = raws.map (coerce_item mapping) ∧
    (coerce_model mapping raws).length = raws.length ∧
    ∀ (i : Nat) (hi : i < raws.length) (hi' : i < (coerce_model mapping raws).length),
      (coerce_model mapping raws).get ⟨i, hi'⟩ =
        coerce_item mapping (raws.get ⟨i, hi⟩) := by
  refine ⟨coerce_model_eq_map mapping raws, ?_, coerce_model_get mapping raws⟩
  rw [coerce_model_eq_map mapping raws]
  exact List.length_map _ _

/-- Witness for C4 at a concrete two-record input. -/
theorem coerce_model_one_to_one_ordered_witness :
    (coerce_model MODEL_TO_CSV_DICT
        [[("product_id", Val.str "7")], [("product_name", Val.str "x")]]).get
      ⟨1, by decide⟩ =
      coerce_item MODEL_TO_CSV_DICT [("product_name", Val.str "x")] :=
  (coerce_model_one_to_one_ordered MODEL_TO_CSV_DICT
    [[("product_id", Val.str "7")], [("product_name", Val.str "x")]]).2.2
    1 (by decide) (by decide)

/-- Counterexample for C5: the fixed column schema does not have 37 columns. -/
theorem headers_csv_not_37 : ¬ HEADERS_CSV.length = 37 := by decide

/-- Claim C5 (amended): the delimited-text parser's fixed, ordered
column-name schema consists of exactly 38 named columns, and every parsed
row is decoded against this 38-column schema in order (the keys of each raw
record are exactly `HEADERS_CSV`, in schema order). -/
theorem headers_csv_schema_38 :
    HEADERS_CSV.length = 38 ∧
      ∀ cells : List (Option String),
        (csvRowToRaw cells).map Prod.fst = HEADERS_CSV :=
  ⟨by decide, fun cells => rowFields_keys HEADERS_CSV cells⟩

/-- Claim C6: for the XML format the canonical fields with undefined mapping
entries (`discount`, `discount_type`, `currency`) never appear in any record
the pipeline outputs, and the element holding exactly
`item_unique_id = 42` and `item_title = Book` maps to the canonical record
with exactly `id = 42` and `title = Book`. -/
theorem xml_unmapped_fields_never_output :
    (∀ (elems : List (List (String × Option String))) (r : Rec),
        r ∈ coerce_model MODEL_TO_XML_DICT (xmlParse elems) →
          dictGet r "discount" = none ∧ dictGet r "discount_type" = none ∧
            dictGet r "currency" = none) ∧
      coerce_item MODEL_TO_XML_DICT
          (xmlElemToRaw [("item_unique_id", some "42"), ("item_title", some "Book")]) =
        [("id", Val.str "42"), ("title", Val.str "Book")] := by
  constructor
  · intro elems r hr
    rw [coerce_model_eq_map] at hr
    obtain ⟨raw, _, hre⟩ := List.mem_map.mp hr
    subst hre
    exact ⟨coerce_item_unmapped (by decide), coerce_item_unmapped (by decide),
      coerce_item_unmapped (by decide)⟩
  · decide

/-- Witness for C6 at a concrete one-element document. -/
theorem xml_unmapped_fields_never_output_witness :
    dictGet
        (coerce_item MODEL_TO_XML_DICT
          (xmlElemToRaw [("item_unique_id", some "42"), ("discount", some "5")]))
        "discount" = none :=
  (xml_unmapped_fields_never_output.1
    [[("item_unique_id", some "42"), ("discount", some "5")]]
    (coerce_item MODEL_TO_XML_DICT
      (xmlElemToRaw [("item_unique_id", some "42"), ("discount", some "5")]))
    (by decide)).1

/-- Claim C7: the index setup of `MongoStorage.__init__` leaves an index
named `id` present, is idempotent (a second construction changes nothing),
does nothing when the index already exists, and creates the unique index
exactly when it is absent. -/
theorem mongo_index_setup (idx : IndexInfo) :
    (dictGet (mongoInitIndexes idx) "id").isSome = true ∧
    mongoInitIndexes (mongoInitIndexes idx) = mongoInitIndexes idx ∧
    ((dictGet idx "id").isSome = true → mongoInitIndexes idx = idx) ∧
    (dictGet idx "id" = none → mongoInitIndexes idx = idx ++ [("id", true)]) := by
  by_cases h : (dictGet idx "id").isSome = true
  · have hid : mongoInitIndexes idx = idx := by rw [mongoInitIndexes, if_pos h]
    refine ⟨?_, ?_, fun _ => hid, fun hn => ?_⟩
    · rw [hid]
      exact h
    · rw [hid]
      exact hid
    · rw [hn] at h
      cases h
  · have happ : dictGet (idx ++ [("id", true)]) "id" = some true :=
      dictGet_append_right idx (by decide)
    have hstep : mongoInitIndexes idx = idx ++ [("id", true)] := by
      rw [mongoInitIndexes, if_neg h]
    refine ⟨?_, ?_, fun hs => absurd hs h, fun _ => hstep⟩
    · rw [hstep, happ]
      rfl
    · rw [hstep, mongoInitIndexes, happ]
      simp

/-- Witness for C7 at concrete index states with and without the index. -/
theorem mongo_index_setup_witness :
    mongoInitIndexes [("id", true)] = [("id", true)] ∧
      mongoInitIndexes [] = [] ++ [("id", true)] :=
  ⟨(mongo_index_setup [("id", true)]).2.2.1 (by decide),
   (mongo_index_setup []).2.2.2 (by decide)⟩

/-- Counterexample for C8: a child element whose text is `None` is NOT
omitted from the raw record — the record contains its tag bound to the
Python `None` value. -/
theorem xml_null_text_child_present :
    xmlElemToRaw [("t", none)] = [("t", Val.null)] ∧
      dictGet (xmlElemToRaw [("t", none)]) "t" ≠ none := by
  constructor
  · rfl
  · decide

/-- Claim C8 (amended): every immediate child of a record-container element
becomes a field of the raw record — child tag bound to child text, with
`None` text kept as a `None` value rather than omitted; such `None`-valued
fields are only treated as absent downstream, since the schema mapper emits
none but truthy values. -/
theorem xml_null_text_fields :
    (∀ children : List (String × Option String),
        (xmlElemToRaw children).map Prod.fst = children.map Prod.fst ∧
        ∀ t : String,
          dictGet (xmlElemToRaw children) t = (dictGet children t).map txtVal) ∧
    (∀ (m : List (String × Option String)) (item : Rec) (p : String × Val),
        p ∈ coerce_item m item → truthy p.2 = true) := by
  constructor
  · intro children
    exact ⟨xmlElemToRaw_keys children, fun t => dictGet_map_snd txtVal children t⟩
  · intro m item p hp
    obtain ⟨q, hq, he⟩ := mem_coerce_item.mp hp
    obtain ⟨_, n, _, _, _, ht⟩ := coerceEntry_eq_some.mp he
    exact ht

/-- Witness for C8 at a concrete mapped field. -/
theorem xml_null_text_fields_witness :
    truthy (("id", Val.str "42") : String × Val).2 = true :=
  xml_null_text_fields.2 MODEL_TO_XML_DICT
    (xmlElemToRaw [("item_unique_id", some "42")]) ("id", Val.str "42") (by decide)

/-- Claim C9: `CsvParser.parse` yields exactly one raw record per row in
file order; each record's keys are exactly the 38 schema columns in order,
every value is a string (never absent, never `None`), and cells at or past
the row's length — missing trailing columns — are the empty string. -/
theorem csv_rows_complete :
    (∀ rows : List (List (Option String)),
        csvParse rows = rows.map csvRowToRaw ∧ (csvParse rows).length = rows.length) ∧
    (∀ cells : List (Option String),
        (csvRowToRaw cells).map Prod.fst = HEADERS_CSV) ∧
    (∀ (cells : List (Option String)) (p : String × Val),
        p ∈ csvRowToRaw cells → ∃ s, p.2 = Val.str s) ∧
    (∀ (cells : List (Option String)) (i : Nat)
        (hi : i < (csvRowToRaw cells).length), cells.length ≤ i →
          ((csvRowToRaw cells).get ⟨i, hi⟩).2 = Val.str "") :=
  ⟨fun rows => ⟨rfl, by simp [csvParse]⟩,
   fun cells => rowFields_keys HEADERS_CSV cells,
   fun cells p hp => rowFields_vals HEADERS_CSV cells p hp,
   fun cells i hi hle => rowFields_trailing HEADERS_CSV cells i hi hle⟩

/-- Witness for C9 at a one-cell row: column 2 is a missing trailing cell. -/
theorem csv_rows_complete_witness :
    ((csvRowToRaw [some "123"]).get ⟨1, by decide⟩).2 = Val.str "" :=
  csv_rows_complete.2.2.2 [some "123"] 1 (by decide) (by decide)

/-- Claim C10: if any record of the batch lacks an `id` key,
`MongoStorage.store` raises the key-lookup error while assembling the batch;
`bulk.execute()` is never reached, so the collection is unchanged. -/
theorem store_missing_id_error (c : Coll) (docs : List Rec)
    (h : ∃ d ∈ docs, dictGet d "id" = none) :
    (store c docs).err.isSome = true ∧ (store c docs).coll = c := by
  obtain ⟨e, he⟩ := buildBulk_error_of_missing h
  constructor
  · simp [store, he]
  · simp [store, he]

/-- Witness for C10 at a batch whose second record lacks `id`. -/
theorem store_missing_id_error_witness :
    (store [] [[("id", Val.str "1")], [("title", Val.str "x")]]).err.isSome = true ∧
      (store [] [[("id", Val.str "1")], [("title", Val.str "x")]]).coll = [] :=
  store_missing_id_error [] [[("id", Val.str "1")], [("title", Val.str "x")]]
    ⟨[("title", Val.str "x")], by decide⟩
